import Mathlib

/-!
Verification of the livephotos-gallery import scripts.

The repository is a set of Python command-line utilities maintaining a JSON
gallery manifest.  This file gives a shallow embedding of the pure logic of
those scripts and proves, or refutes, the frozen specification claims about
them.  Effects (filesystem reads, subprocess probes, wall-clock time) are
passed in explicitly as values; everything else is translated function by
function from the Python source:

  - scripts/batch_heic_importer.py : sanitize_filename, get_video_duration,
    the size-formatting loop of get_file_size, create_gallery_item,
    load_gallery_config, save_gallery_config, find_or_create_category and
    the item-upsert loop of process_intake_folders, plus the
    copy-image-if-absent step.
  - scripts/quick_import.py : format_bytes, get_video_duration, the entry
    built by quick_import, and update_gallery_config.
  - scripts/extract_livephoto.py : get_video_duration (same as quick_import).
  - scripts/update_to_heic.py : update_to_heic.
-/

namespace LivePhotos

/-! ### Character helpers (ASCII model of the Python string operations) -/

/-- Characters allowed by the regex class, as code-point ranges:
lowercase ASCII letters, ASCII digits, underscore. -/
def allowedChar (c : Char) : Bool :=
  (97 ≤ c.toNat && c.toNat ≤ 122) || (48 ≤ c.toNat && c.toNat ≤ 57) || c = '_'

/-- ASCII lowering, the ASCII fragment of Python str.lower. -/
def lowerAscii (c : Char) : Char :=
  if 65 ≤ c.toNat ∧ c.toNat ≤ 90 then Char.ofNat (c.toNat + 32) else c

/-! ### Path name and stem, modelling pathlib PurePosixPath -/

/-- Split a character list on a separator character, in the manner of the
Python str.split method with an explicit separator: the empty list splits to
one empty field. -/
def splitOnCharL (sep : Char) : List Char → List (List Char)
  | [] => [[]]
  | c :: rest =>
    match splitOnCharL sep rest with
    | [] => [[c]]
    | h :: t => if c = sep then [] :: h :: t else (c :: h) :: t

/-- The final path component, as pathlib computes the name property of a pure
POSIX path: split on the slash, drop empty components and single-dot
components, take the last remaining component (empty if none). -/
def pathNameL (l : List Char) : List Char :=
  (((splitOnCharL '/' l).filter (fun c => c ≠ [] ∧ c ≠ ['.'])).getLast?).getD []

/-- The stem of a path name as pathlib computes it: cut at the last dot
provided that dot is neither the first character nor the last. -/
def pyStem (name : List Char) : List Char :=
  match name.reverse.findIdx? (fun c => c = '.') with
  | none => name
  | some r =>
    let i := name.length - 1 - r
    if 0 < i ∧ i < name.length - 1 then name.take i else name

/-! ### sanitize_filename from batch_heic_importer.py -/

/-- One character of the substitution re.sub with pattern the complement of
the allowed class and replacement the underscore. -/
def substChar (c : Char) : Char := if allowedChar c then c else '_'

/-- Collapse every run of underscores to a single underscore, the effect of
re.sub with pattern one-or-more underscores and replacement one underscore. -/
def collapseUnd : List Char → List Char
  | [] => []
  | [c] => [c]
  | a :: b :: rest =>
    if a = '_' ∧ b = '_' then collapseUnd (b :: rest)
    else a :: collapseUnd (b :: rest)

/-- Remove leading and trailing underscores, the Python strip method with
argument the underscore. -/
def stripUnd (l : List Char) : List Char :=
  ((l.dropWhile (fun c => c = '_')).reverse.dropWhile (fun c => c = '_')).reverse

/-- sanitize_filename from batch_heic_importer.py: stem of the path,
lowercased, every disallowed character replaced by an underscore, runs of
underscores collapsed, edge underscores stripped. -/
def sanitize_filename (filename : String) : String :=
  ⟨stripUnd (collapseUnd (((pyStem (pathNameL filename.data)).map lowerAscii).map substChar))⟩

/-- Boolean well-formedness of a slug: only allowed characters, no two
consecutive underscores, no leading and no trailing underscore. -/
def noDoubleUnd : List Char → Bool
  | a :: b :: rest => (!(a = '_' && b = '_')) && noDoubleUnd (b :: rest)
  | _ => true

/-- The shape the spec asserts of every slug. -/
def slugOk (l : List Char) : Bool :=
  l.all allowedChar && noDoubleUnd l &&
    l.head? ≠ some '_' && l.getLast? ≠ some '_'

/-! ### Data model: gallery items, categories, manifest -/

/-- A gallery item, the dictionary built by create_gallery_item in
batch_heic_importer.py and by quick_import in quick_import.py. -/
structure GalleryItem where
  id : String
  title : String
  description : String
  imageURL : String
  videoURL : String
  thumbnailURL : String
  isPremium : Bool
  tags : List String
  duration : ℚ
  sizeBytes : ℕ
  sizeFormatted : String
  createdAt : String
deriving Repr, DecidableEq

/-- A category of the manifest. -/
structure Category where
  id : String
  name : String
  description : String
  items : List GalleryItem
deriving Repr, DecidableEq

/-- The gallery manifest, gallery-config.json. -/
structure GalleryConfig where
  version : String
  lastUpdated : String
  baseURL : String
  categories : List Category
deriving Repr, DecidableEq

/-! ### Python str.title, used for derived category and item names -/

/-- ASCII letter test, the cased-character test of the ASCII fragment. -/
def isAsciiAlphaB (c : Char) : Bool :=
  (65 ≤ c.toNat && c.toNat ≤ 90) || (97 ≤ c.toNat && c.toNat ≤ 122)

/-- ASCII uppercasing. -/
def upperAscii (c : Char) : Char :=
  if 97 ≤ c.toNat ∧ c.toNat ≤ 122 then Char.ofNat (c.toNat - 32) else c

/-- The ASCII fragment of Python str.title: a letter is uppercased when the
previous character is not cased, lowercased otherwise. -/
def pyTitleAux : Bool → List Char → List Char
  | _, [] => []
  | prevCased, c :: rest =>
    (if isAsciiAlphaB c then (if prevCased then lowerAscii c else upperAscii c) else c)
      :: pyTitleAux (isAsciiAlphaB c) rest

/-- Python str.title on a string (ASCII model). -/
def pyTitle (s : String) : String := ⟨pyTitleAux false s.data⟩

/-! ### find_or_create_category from batch_heic_importer.py -/

/-- find_or_create_category: linear search of the category list by id; on a
miss a new category is built with title-cased name and a derived description
and appended.  The Python function mutates the config and returns the found
or created category; the embedding returns the category together with the
updated config. -/
def newCategory (category_name : String) : Category :=
  { id := category_name
    name := pyTitle category_name
    description := "Beautiful " ++ category_name ++ " scenes"
    items := [] }

def find_or_create_category (config : GalleryConfig) (category_name : String) :
    Category × GalleryConfig :=
  match config.categories.find? (fun category => category.id = category_name) with
  | some category => (category, config)
  | none =>
    (newCategory category_name,
      { config with categories := config.categories ++ [newCategory category_name] })

/-! ### The item upsert loop of process_intake_folders (batch_heic_importer.py)
and the item-append logic of update_gallery_config (quick_import.py) -/

/-- The upsert loop of process_intake_folders: scan the item list for the
first entry with the same id; replace it in place when found, append at the
end otherwise. -/
def upsertItem : List GalleryItem → GalleryItem → List GalleryItem
  | [], item => [item]
  | existing :: rest, item =>
    if existing.id = item.id then item :: rest
    else existing :: upsertItem rest item

/-- The item logic of update_gallery_config in quick_import.py: the entry is
appended when its id is not among the existing item ids, and nothing happens
when it already is. -/
def quickUpdateItems (items : List GalleryItem) (entry : GalleryItem) : List GalleryItem :=
  if entry.id ∈ items.map (fun item => item.id) then items else items ++ [entry]

/-- The category loop of update_gallery_config in quick_import.py: find the
first category with the requested id and update its item list; the loop
breaks there, and a missing category is silently ignored. -/
def update_gallery_config_categories (entry : GalleryItem) (category : String) :
    List Category → List Category
  | [] => []
  | cat :: rest =>
    if cat.id = category then
      { cat with items := quickUpdateItems cat.items entry } :: rest
    else
      cat :: update_gallery_config_categories entry category rest

/-! ### Lemmas about upsert and category resolution -/

def firstIdxWithId (s : String) : List GalleryItem → Option ℕ
  | [] => none
  | existing :: rest =>
    if existing.id = s then some 0
    else (firstIdxWithId s rest).map (fun i => i + 1)

/-! ### Concrete inputs used by counterexamples and witnesses -/

def emptyConfig : GalleryConfig :=
  { version := "1.0.0", lastUpdated := "", baseURL := "", categories := [] }

def mkItem (idv titlev : String) : GalleryItem :=
  { id := idv, title := titlev, description := "", imageURL := "", videoURL := "",
    thumbnailURL := "", isPremium := false, tags := [], duration := 1,
    sizeBytes := 0, sizeFormatted := "0 bytes", createdAt := "" }

/-! ### Python float parsing (model of the float builtin on finite decimal
literals, the shape ffprobe reports durations in) -/

/-- ASCII whitespace, the characters the Python strip method removes. -/
def isSpaceB (c : Char) : Bool :=
  c = ' ' || c = '\t' || c = '\n' || c = '\r' || c.toNat = 11 || c.toNat = 12

/-- Python str.strip with no argument: drop whitespace from both ends. -/
def pyStrip (s : String) : String :=
  ⟨((s.data.dropWhile isSpaceB).reverse.dropWhile isSpaceB).reverse⟩

/-- Value of a nonempty all-digit character list. -/
def digitsToNat? (l : List Char) : Option ℕ :=
  if l = [] then none
  else if l.all (fun c => 48 ≤ c.toNat && c.toNat ≤ 57) then
    some (l.foldl (fun acc c => acc * 10 + (c.toNat - 48)) 0)
  else none

/-- Mantissa: digits, digits dot digits, digits dot, or dot digits. -/
def parseMantissa (l : List Char) : Option ℚ :=
  match splitOnCharL '.' l with
  | [ip] => (digitsToNat? ip).map (fun n => (n : ℚ))
  | [ip, fp] =>
    if ip = [] ∧ fp = [] then none
    else
      match (if ip = [] then some 0 else digitsToNat? ip),
        (if fp = [] then some 0 else digitsToNat? fp) with
      | some a, some b => some ((a : ℚ) + (b : ℚ) / (10 : ℚ) ^ fp.length)
      | _, _ => none
  | _ => none

/-- Optional leading sign. -/
def parseSigned (parse : List Char → Option ℚ) : List Char → Option ℚ
  | '+' :: rest => parse rest
  | '-' :: rest => (parse rest).map (fun q => -q)
  | l => parse l

/-- Signed integer exponent. -/
def parseExpPart (l : List Char) : Option ℤ :=
  match l with
  | '+' :: rest => (digitsToNat? rest).map (fun n => (n : ℤ))
  | '-' :: rest => (digitsToNat? rest).map (fun n => -(n : ℤ))
  | _ => (digitsToNat? l).map (fun n => (n : ℤ))

/-- Model of the Python float builtin on finite decimal literals with an
optional sign and exponent; anything else is a parse failure. -/
def pyFloat (s : String) : Option ℚ :=
  match splitOnCharL 'e' ((pyStrip s).data.map lowerAscii) with
  | [m] => parseSigned parseMantissa m
  | [m, e] =>
    match parseSigned parseMantissa m, parseExpPart e with
    | some q, some x => some (q * (10 : ℚ) ^ x)
    | _, _ => none
  | _ => none

/-! ### get_video_duration: three variants across the scripts -/

/-- get_video_duration from batch_heic_importer.py.  The subprocess outcome
is passed explicitly: none when the call raised (ffprobe missing, or nonzero
exit under check), some stdout otherwise.  An empty or N/A stripped output
falls through to the 1.0 default, and a float parse error is caught by the
bare except clause, also yielding 1.0. -/
def get_video_duration (probe : Option String) : ℚ :=
  match probe with
  | none => 1
  | some out =>
    let duration_str := pyStrip out
    if duration_str ≠ "" ∧ duration_str ≠ "N/A" then
      match pyFloat duration_str with
      | some d => d
      | none => 1
    else 1

/-- get_video_duration from quick_import.py and extract_livephoto.py: the
stripped stdout is parsed directly and every failure, of the subprocess or
of the parse, yields the 5.0 default. -/
def quick_get_video_duration (probe : Option String) : ℚ :=
  match probe with
  | none => 5
  | some out =>
    match pyFloat (pyStrip out) with
    | some d => d
    | none => 5

/-! ### Size formatting -/

/-- Round half to even at integer precision, the rounding of Python round
and of percent .1f string formatting on exactly representable values. -/
def rhe (q : ℚ) : ℤ :=
  if q - ⌊q⌋ < 1/2 then ⌊q⌋
  else if q - ⌊q⌋ > 1/2 then ⌊q⌋ + 1
  else if ⌊q⌋ % 2 = 0 then ⌊q⌋ else ⌊q⌋ + 1

/-- Format a nonnegative rational with exactly one decimal digit, the
percent .1f format of Python on exactly representable values. -/
def fmt1 (q : ℚ) : String :=
  toString (rhe (q * 10) / 10) ++ "." ++ toString (rhe (q * 10) % 10)

/-- Python round to one decimal place, used for the duration field. -/
def roundPy1 (q : ℚ) : ℚ := (rhe (q * 10) : ℚ) / 10

/-- The formatting loop of get_file_size in batch_heic_importer.py: walk the
unit list dividing by 1024; the first unit whose mantissa is below 1024 is
printed, with no decimals for the bytes unit and one decimal otherwise; when
every unit is exhausted the mantissa is printed as TB. -/
def format_size_loop : ℚ → List String → String
  | size, [] => fmt1 size ++ " TB"
  | size, unit :: rest =>
    if size < 1024 then
      if unit = "bytes" then toString ⌊size⌋ ++ " " ++ unit
      else fmt1 size ++ " " ++ unit
    else format_size_loop (size / 1024) rest

/-- The formatted component of get_file_size in batch_heic_importer.py. -/
def get_file_size_formatted (size_bytes : ℕ) : String :=
  format_size_loop (size_bytes : ℚ) ["bytes", "KB", "MB", "GB"]

/-- format_bytes from quick_import.py and extract_livephoto.py: same 1024
walk, but the unit names are B, KB, MB, GB, TB and every unit, bytes
included, is printed with one decimal. -/
def format_bytes_loop : ℚ → List String → String
  | v, [] => fmt1 v ++ " TB"
  | v, unit :: rest =>
    if v < 1024 then fmt1 v ++ " " ++ unit
    else format_bytes_loop (v / 1024) rest

/-- format_bytes from quick_import.py on a byte count. -/
def format_bytes (bytes_val : ℕ) : String :=
  format_bytes_loop (bytes_val : ℚ) ["B", "KB", "MB", "GB"]

/-! ### JSON values and the 2-space-indent serializer of json.dump -/

/-- Minimal JSON value model: the constructors the scripts read and write
(the claims do not depend on float rendering, so numbers are integers). -/
inductive Json where
  | null : Json
  | bool (b : Bool) : Json
  | int (n : ℤ) : Json
  | str (s : String) : Json
  | arr (items : List Json) : Json
  | obj (fields : List (String × Json)) : Json

/-- JSON string escaping for the characters appearing in manifests. -/
def escChar (c : Char) : List Char :=
  if c = '"' then ['\\', '"']
  else if c = '\\' then ['\\', '\\']
  else if c = '\n' then ['\\', 'n']
  else if c = '\t' then ['\\', 't']
  else if c = '\r' then ['\\', 'r']
  else [c]

def escString (s : String) : String :=
  ⟨s.data.foldr (fun c acc => escChar c ++ acc) []⟩

def spaces (n : ℕ) : String := ⟨List.replicate n ' '⟩

mutual

/-- The layout json.dump produces with indent 2 (generalized to the current
indent level): scalars inline, empty containers inline, nonempty containers
one element per line at the deeper indent with the closer back at the
current indent.  No trailing newline is ever produced. -/
def pyJsonDumps (ind : ℕ) : Json → String
  | Json.null => "null"
  | Json.bool true => "true"
  | Json.bool false => "false"
  | Json.int n => toString n
  | Json.str s => "\"" ++ escString s ++ "\""
  | Json.arr [] => "[]"
  | Json.arr (x :: xs) =>
    "[\n" ++ dumpsArrItems (ind + 2) (x :: xs) ++ "\n" ++ spaces ind ++ "]"
  | Json.obj [] => "\x7b\x7d"
  | Json.obj (f :: fs) =>
    "\x7b\n" ++ dumpsObjItems (ind + 2) (f :: fs) ++ "\n" ++ spaces ind ++ "\x7d"

def dumpsArrItems (ind : ℕ) : List Json → String
  | [] => ""
  | [x] => spaces ind ++ pyJsonDumps ind x
  | x :: y :: rest =>
    spaces ind ++ pyJsonDumps ind x ++ ",\n" ++ dumpsArrItems ind (y :: rest)

def dumpsObjItems (ind : ℕ) : List (String × Json) → String
  | [] => ""
  | [(k, v)] => spaces ind ++ "\"" ++ escString k ++ "\": " ++ pyJsonDumps ind v
  | (k, v) :: f :: rest =>
    spaces ind ++ "\"" ++ escString k ++ "\": " ++ pyJsonDumps ind v ++ ",\n"
      ++ dumpsObjItems ind (f :: rest)

end

/-- Python dict assignment on an insertion-ordered association list: replace
in place when the key exists, append otherwise. -/
def dictSet : List (String × Json) → String → Json → List (String × Json)
  | [], k, v => [(k, v)]
  | (k0, v0) :: rest, k, v =>
    if k0 = k then (k0, v) :: rest else (k0, v0) :: dictSet rest k v

/-- Python dict lookup. -/
def dictGet : List (String × Json) → String → Option Json
  | [], _ => none
  | (k0, v0) :: rest, k => if k0 = k then some v0 else dictGet rest k

/-- The fresh manifest load_gallery_config builds when the file is absent. -/
def freshManifestFields (now : String) : List (String × Json) :=
  [("version", Json.str "1.0.0"),
   ("lastUpdated", Json.str now),
   ("baseURL",
     Json.str "https://raw.githubusercontent.com/CodingMogul/livephotos-gallery/master"),
   ("categories", Json.arr [])]

/-- load_gallery_config from batch_heic_importer.py.  The read outcome is an
explicit input: none when the file is absent (FileNotFoundError, the only
caught exception), some (Except.error e) when the file exists but json.load
raises a decode error (uncaught, it propagates and is fatal for the run),
and some (Except.ok j) for any successful parse, returned with no schema
check at all. -/
def load_gallery_config (file : Option (Except String Json)) (now : String) :
    Except String Json :=
  match file with
  | some (Except.ok j) => Except.ok j
  | some (Except.error e) => Except.error e
  | none => Except.ok (Json.obj (freshManifestFields now))

/-- save_gallery_config from batch_heic_importer.py: set lastUpdated to the
current UTC time, then serialize with 2-space indent; json.dump writes no
trailing newline and the script adds none.  Returns the updated in-memory
config together with the written file text. -/
def save_gallery_config (config : List (String × Json)) (now : String) :
    List (String × Json) × String :=
  (dictSet config "lastUpdated" (Json.str now),
    pyJsonDumps 0 (Json.obj (dictSet config "lastUpdated" (Json.str now))))

/-- The final write of update_gallery_config in quick_import.py: the config
is serialized with 2-space indent and an explicit trailing newline; the
lastUpdated field is not touched. -/
def quick_config_write (config : List (String × Json)) : String :=
  pyJsonDumps 0 (Json.obj config) ++ "\n"

/-- Last character of the written file. -/
def lastChar? (s : String) : Option Char := s.data.getLast?

/-! ### Item construction: create_gallery_item and the quick_import entry -/

/-- create_gallery_item from batch_heic_importer.py.  Filesystem and clock
effects are explicit inputs: the copied image name, the optional paired
video (its copied name and the ffprobe outcome), the tag list, the intake
folder name, the probed image size pair, and the current timestamp. -/
def create_gallery_item (heicName : String) (video : Option (String × Option String))
    (tags : List String) (folder_name : String)
    (image_size_bytes : ℕ) (image_size_formatted : String) (now : String) : GalleryItem :=
  let base_name := sanitize_filename folder_name
  let title := pyTitle ⟨folder_name.data.map (fun c => if c = '_' then ' ' else c)⟩
  let dv : ℚ × String :=
    match video with
    | some (vname, probe) => (get_video_duration probe, "videos/" ++ vname)
    | none => (1, "")
  { id := base_name
    title := title
    description := "Live Photo from paired HEIC and MOV files"
    imageURL := "images/" ++ heicName
    videoURL := dv.2
    thumbnailURL := "images/" ++ heicName
    isPremium := tags.contains "premium"
    tags := tags
    duration := roundPy1 dv.1
    sizeBytes := image_size_bytes
    sizeFormatted := image_size_formatted
    createdAt := now }

/-- The entry dictionary built by quick_import in quick_import.py: the
premium flag comes from the command line, not from the tag list, and the
tags are the chosen category followed by custom. -/
def quick_import_entry (name title category : String) (is_premium : Bool)
    (image_extension video_extension : String) (img_size mov_size : ℕ)
    (probe : Option String) (now : String) : GalleryItem :=
  { id := ⟨(name.data.map lowerAscii).map (fun c => if c = ' ' then '_' else c)⟩
    title := title
    description := title ++ " Live Photo"
    imageURL := "images/" ++ name ++ "." ++ image_extension
    videoURL := "videos/" ++ name ++ "." ++ video_extension
    thumbnailURL := "images/" ++ name ++ "." ++ image_extension
    isPremium := is_premium
    tags := [category, "custom"]
    duration := roundPy1 (quick_get_video_duration probe)
    sizeBytes := img_size + mov_size
    sizeFormatted := format_bytes (img_size + mov_size)
    createdAt := now ++ "Z" }

/-! ### Claim C9: the copy-if-absent step of process_intake_folders -/

/-- Lookup in a flat model of the filesystem, an association of paths to
file contents. -/
def fsRead : List (String × String) → String → Option String
  | [], _ => none
  | e :: rest, p => if e.1 = p then some e.2 else fsRead rest p

/-- The image copy step of process_intake_folders in batch_heic_importer.py:
when the destination already exists nothing is copied and the filesystem is
unchanged; only when it is absent is the source content copied over. -/
def copy_image_if_absent (fs : List (String × String)) (src dest : String) :
    List (String × String) :=
  if (fsRead fs dest).isSome then fs
  else
    match fsRead fs src with
    | some content => fs ++ [(dest, content)]
    | none => fs

/-! ### Claim C10: update_to_heic -/

/-- The item loop of update_to_heic in update_to_heic.py: every item whose
images/<id>.HEIC file exists is kept with imageURL and thumbnailURL
rewritten to that path; every other item is dropped.  The existence check of
the filesystem is a parameter. -/
def update_to_heic_items (heicExists : String → Bool) : List GalleryItem → List GalleryItem
  | [] => []
  | item :: rest =>
    if heicExists ("images/" ++ item.id ++ ".HEIC") then
      { item with
        imageURL := "images/" ++ item.id ++ ".HEIC"
        thumbnailURL := "images/" ++ item.id ++ ".HEIC" }
        :: update_to_heic_items heicExists rest
    else update_to_heic_items heicExists rest

/-- update_to_heic over the whole manifest: the item loop applied to each
category in place; the updated manifest is then written back. -/
def update_to_heic (heicExists : String → Bool) (config : GalleryConfig) : GalleryConfig :=
  { config with
    categories := config.categories.map (fun category =>
      { category with items := update_to_heic_items heicExists category.items }) }

/-! ### Lemmas about the slug pipeline -/

theorem substChar_allowed (c : Char) : allowedChar (substChar c) = true := by
  by_cases h : allowedChar c = true
  · simp [substChar, h]
  · simp [substChar, h]
    decide

theorem allowedChar_ranges {c : Char} (h : allowedChar c = true) :
    (97 ≤ c.toNat ∧ c.toNat ≤ 122) ∨ (48 ≤ c.toNat ∧ c.toNat ≤ 57) ∨ c.toNat = 95 := by
  simp only [allowedChar, Bool.or_eq_true, Bool.and_eq_true, decide_eq_true_eq] at h
  rcases h with (h | h) | h
  · exact Or.inl h
  · exact Or.inr (Or.inl h)
  · subst h; right; right; rfl

theorem lowerAscii_fixed {c : Char} (h : allowedChar c = true) : lowerAscii c = c := by
  have := allowedChar_ranges h
  rw [lowerAscii, if_neg]
  omega

theorem substChar_fixed {c : Char} (h : allowedChar c = true) : substChar c = c := by
  rw [substChar, if_pos h]

theorem allowedChar_ne_slash {c : Char} (h : allowedChar c = true) : c ≠ '/' := by
  intro he
  subst he
  exact absurd h (by decide)

theorem allowedChar_ne_dot {c : Char} (h : allowedChar c = true) : c ≠ '.' := by
  intro he
  subst he
  exact absurd h (by decide)

theorem collapseUnd_sublist : ∀ l : List Char, List.Sublist (collapseUnd l) l
  | [] => by simp [collapseUnd]
  | [c] => by simp [collapseUnd]
  | a :: b :: rest => by
    rw [collapseUnd]
    split
    · exact (collapseUnd_sublist (b :: rest)).cons a
    · exact (collapseUnd_sublist (b :: rest)).cons₂ a

theorem collapseUnd_head : ∀ (b : Char) (rest : List Char),
    (collapseUnd (b :: rest)).head? = some b
  | b, [] => by simp [collapseUnd]
  | a, b :: rest => by
    rw [collapseUnd]
    split
    · rename_i h
      rw [collapseUnd_head b rest, h.1, h.2]
    · simp

theorem noDoubleUnd_collapseUnd : ∀ l : List Char, noDoubleUnd (collapseUnd l) = true
  | [] => rfl
  | [c] => rfl
  | a :: b :: rest => by
    rw [collapseUnd]
    split
    · exact noDoubleUnd_collapseUnd (b :: rest)
    · rename_i h
      obtain ⟨t, ht⟩ : ∃ t, collapseUnd (b :: rest) = b :: t := by
        have hh := collapseUnd_head b rest
        cases hc : collapseUnd (b :: rest) with
        | nil => rw [hc] at hh; exact absurd hh (by simp)
        | cons x xs =>
          rw [hc] at hh
          simp only [List.head?_cons, Option.some.injEq] at hh
          exact ⟨xs, by rw [hh]⟩
      have h2 := noDoubleUnd_collapseUnd (b :: rest)
      rw [ht] at h2 ⊢
      rw [noDoubleUnd, h2, Bool.and_true, Bool.not_eq_true', Bool.and_eq_false_iff]
      by_cases ha : a = '_'
      · right
        simp only [decide_eq_false_iff_not]
        intro hb
        exact h ⟨ha, hb⟩
      · left
        simp [ha]

theorem collapseUnd_of_noDouble : ∀ l : List Char,
    noDoubleUnd l = true → collapseUnd l = l
  | [], _ => rfl
  | [c], _ => rfl
  | a :: b :: rest, h => by
    rw [noDoubleUnd, Bool.and_eq_true, Bool.not_eq_true', Bool.and_eq_false_iff] at h
    rw [collapseUnd, if_neg, collapseUnd_of_noDouble (b :: rest) h.2]
    rcases h.1 with h1 | h1 <;> simp only [decide_eq_false_iff_not] at h1
    · exact fun hc => h1 hc.1
    · exact fun hc => h1 hc.2

theorem noDoubleUnd_tail {a : Char} {l : List Char}
    (h : noDoubleUnd (a :: l) = true) : noDoubleUnd l = true := by
  cases l with
  | nil => rfl
  | cons b t =>
    rw [noDoubleUnd, Bool.and_eq_true] at h
    exact h.2

theorem noDoubleUnd_append_right : ∀ t l : List Char,
    noDoubleUnd (t ++ l) = true → noDoubleUnd l = true
  | [], _, h => h
  | _ :: t, l, h => noDoubleUnd_append_right t l (noDoubleUnd_tail h)

theorem noDoubleUnd_iff_chain : ∀ l : List Char,
    noDoubleUnd l = true ↔ l.Chain' (fun a b => ¬(a = '_' ∧ b = '_'))
  | [] => by simp [noDoubleUnd]
  | [c] => by simp [noDoubleUnd]
  | a :: b :: l => by
    rw [noDoubleUnd, List.chain'_cons, Bool.and_eq_true, Bool.not_eq_true',
      ← noDoubleUnd_iff_chain (b :: l), Bool.and_eq_false_iff]
    constructor
    · rintro ⟨h1, h2⟩
      refine ⟨?_, h2⟩
      rcases h1 with h1 | h1 <;> simp only [decide_eq_false_iff_not] at h1
      · exact fun hc => h1 hc.1
      · exact fun hc => h1 hc.2
    · rintro ⟨h1, h2⟩
      refine ⟨?_, h2⟩
      by_cases ha : a = '_'
      · right
        simp only [decide_eq_false_iff_not]
        exact fun hb => h1 ⟨ha, hb⟩
      · left
        simp [ha]

theorem noDoubleUnd_reverse_of {l : List Char} (h : noDoubleUnd l = true) :
    noDoubleUnd l.reverse = true := by
  rw [noDoubleUnd_iff_chain] at h ⊢
  rw [List.chain'_reverse]
  exact h.imp fun a b hab hc => hab ⟨hc.2, hc.1⟩

theorem head_dropWhile_ne : ∀ l : List Char, ∀ {a : Char},
    (l.dropWhile (fun c => c = '_')).head? = some a → a ≠ '_'
  | [], a, h => by simp at h
  | c :: rest, a, h => by
    rw [List.dropWhile_cons] at h
    split at h
    · exact head_dropWhile_ne rest h
    · rename_i hc
      simp only [List.head?_cons, Option.some.injEq] at h
      subst h
      simpa using hc

theorem dropWhile_eq_self_of_head {l : List Char}
    (h : l.head? ≠ some '_') : l.dropWhile (fun c => c = '_') = l := by
  cases l with
  | nil => rfl
  | cons c rest =>
    rw [List.dropWhile_cons, if_neg]
    simp only [List.head?_cons, ne_eq, Option.some.injEq] at h
    simpa using h

theorem splitOnCharL_of_not_mem {sep : Char} : ∀ l : List Char, sep ∉ l → splitOnCharL sep l = [l]
  | [], _ => rfl
  | c :: rest, h => by
    have hr := splitOnCharL_of_not_mem rest (fun hm => h (List.mem_cons_of_mem c hm))
    have hc : c ≠ sep := fun he => h (he ▸ List.mem_cons_self c rest)
    rw [splitOnCharL, hr]
    simp [hc]

theorem pathNameL_nil : pathNameL [] = [] := rfl

theorem pathNameL_eq_self {l : List Char} (hs : '/' ∉ l) (hne : l ≠ []) (hnd : l ≠ ['.']) :
    pathNameL l = l := by
  have hsep : '/' ∉ l := hs
  rw [pathNameL, splitOnCharL_of_not_mem l hsep]
  simp [hne, hnd]

theorem pyStem_eq_self {l : List Char} (hd : '.' ∉ l) : pyStem l = l := by
  rw [pyStem]
  have hnone : l.reverse.findIdx? (fun c => c = '.') = none := by
    rw [List.findIdx?_eq_none_iff]
    intro x hx
    rw [List.mem_reverse] at hx
    simp only [decide_eq_false_iff_not]
    exact fun he => hd (he ▸ hx)
  rw [hnone]

theorem map_eq_self_of_fixed {f : Char → Char} : ∀ l : List Char,
    (∀ c ∈ l, f c = c) → l.map f = l
  | [], _ => rfl
  | c :: rest, h => by
    rw [List.map_cons, h c (List.mem_cons_self c rest),
      map_eq_self_of_fixed rest (fun x hx => h x (List.mem_cons_of_mem c hx))]

theorem stripUnd_of_edges {l : List Char} (h1 : l.head? ≠ some '_')
    (h2 : l.getLast? ≠ some '_') : stripUnd l = l := by
  rw [stripUnd, dropWhile_eq_self_of_head h1, dropWhile_eq_self_of_head
    (by rw [List.head?_reverse]; exact h2), List.reverse_reverse]

theorem getLast_dropWhile_ne_nil : ∀ l : List Char,
    l.dropWhile (fun c => c = '_') ≠ [] →
    (l.dropWhile (fun c => c = '_')).getLast? = l.getLast?
  | [], h => rfl
  | c :: rest, h => by
    rw [List.dropWhile_cons] at h ⊢
    split
    · rename_i hc
      rw [if_pos hc] at h
      have hrest : rest ≠ [] := by
        intro he
        rw [he] at h
        exact h rfl
      rw [getLast_dropWhile_ne_nil rest h]
      cases rest with
      | nil => exact absurd rfl hrest
      | cons b t => rw [List.getLast?_cons_cons]
    · rfl

theorem stripUnd_getLast (l : List Char) : (stripUnd l).getLast? ≠ some '_' := by
  rw [stripUnd, List.getLast?_reverse]
  intro h
  exact head_dropWhile_ne _ h rfl

theorem stripUnd_head (l : List Char) : (stripUnd l).head? ≠ some '_' := by
  rw [stripUnd, List.head?_reverse]
  by_cases hd : (l.dropWhile (fun c => c = '_')).reverse.dropWhile (fun c => c = '_') = []
  · rw [hd]
    simp
  · rw [getLast_dropWhile_ne_nil _ hd, List.getLast?_reverse]
    intro h
    exact head_dropWhile_ne _ h rfl

theorem noDoubleUnd_dropWhile {l : List Char} (h : noDoubleUnd l = true) :
    noDoubleUnd (l.dropWhile (fun c => c = '_')) = true := by
  obtain ⟨t, ht⟩ := List.dropWhile_suffix (l := l) (p := fun c => c = '_')
  exact noDoubleUnd_append_right t _ (by rw [ht]; exact h)

theorem noDoubleUnd_stripUnd {l : List Char} (h : noDoubleUnd l = true) :
    noDoubleUnd (stripUnd l) = true :=
  noDoubleUnd_reverse_of (noDoubleUnd_dropWhile (noDoubleUnd_reverse_of
    (noDoubleUnd_dropWhile h)))

theorem stripUnd_subset {l : List Char} : ∀ c ∈ stripUnd l, c ∈ l := by
  intro c hc
  rw [stripUnd, List.mem_reverse] at hc
  have hc2 := (List.dropWhile_suffix _).sublist.subset hc
  rw [List.mem_reverse] at hc2
  exact (List.dropWhile_suffix _).sublist.subset hc2

theorem slug_pipeline_ok (l : List Char) :
    slugOk (stripUnd (collapseUnd (l.map substChar))) = true := by
  have hall : ∀ c ∈ l.map substChar, allowedChar c = true := by
    intro c hc
    obtain ⟨a, _, rfl⟩ := List.mem_map.1 hc
    exact substChar_allowed a
  have halls : ∀ c ∈ stripUnd (collapseUnd (l.map substChar)), allowedChar c = true :=
    fun c hc => hall c ((collapseUnd_sublist (l.map substChar)).subset (stripUnd_subset c hc))
  have h1 : (stripUnd (collapseUnd (l.map substChar))).all allowedChar = true :=
    List.all_eq_true.2 halls
  have hnd := noDoubleUnd_stripUnd (noDoubleUnd_collapseUnd (l.map substChar))
  rw [slugOk, h1, hnd]
  simp only [Bool.true_and, Bool.and_eq_true, decide_eq_true_eq]
  exact ⟨stripUnd_head _, stripUnd_getLast _⟩

theorem slugOk_sanitize (x : String) : slugOk (sanitize_filename x).data = true :=
  slug_pipeline_ok _

theorem sanitize_filename_idem (x : String) :
    sanitize_filename (sanitize_filename x) = sanitize_filename x := by
  have hok := slugOk_sanitize x
  rw [slugOk, Bool.and_eq_true, Bool.and_eq_true, Bool.and_eq_true] at hok
  obtain ⟨⟨⟨hallb, hnd⟩, hh⟩, hl⟩ := hok
  have hall : ∀ c ∈ (sanitize_filename x).data, allowedChar c = true :=
    List.all_eq_true.1 hallb
  have hh2 : (sanitize_filename x).data.head? ≠ some '_' := of_decide_eq_true hh
  have hl2 : (sanitize_filename x).data.getLast? ≠ some '_' := of_decide_eq_true hl
  have hdot : '.' ∉ (sanitize_filename x).data :=
    fun hm => allowedChar_ne_dot (hall '.' hm) rfl
  have hslash : '/' ∉ (sanitize_filename x).data :=
    fun hm => allowedChar_ne_slash (hall '/' hm) rfl
  show (⟨stripUnd (collapseUnd (((pyStem (pathNameL
    (sanitize_filename x).data)).map lowerAscii).map substChar))⟩ : String) = sanitize_filename x
  have h1 : pathNameL (sanitize_filename x).data = (sanitize_filename x).data := by
    cases hy : (sanitize_filename x).data with
    | nil => exact pathNameL_nil
    | cons c rest =>
      rw [← hy]
      refine pathNameL_eq_self hslash (by rw [hy]; exact List.cons_ne_nil c rest) ?_
      intro he
      exact allowedChar_ne_dot (hall '.' (by rw [he]; exact List.mem_singleton_self '.')) rfl
  rw [h1, pyStem_eq_self hdot,
    map_eq_self_of_fixed _ (fun c hc => lowerAscii_fixed (hall c hc)),
    map_eq_self_of_fixed _ (fun c hc => substChar_fixed (hall c hc)),
    collapseUnd_of_noDouble _ hnd, stripUnd_of_edges hh2 hl2]

/-- C7: sanitize_filename (the slugify of the spec) is deterministic and
idempotent, and its output consists only of lowercase letters, digits and
underscores, with no two consecutive underscores and no leading or trailing
underscore. -/
theorem sanitize_filename_idempotent_and_shape (x : String) :
    sanitize_filename (sanitize_filename x) = sanitize_filename x ∧
    slugOk (sanitize_filename x).data = true :=
  ⟨sanitize_filename_idem x, slugOk_sanitize x⟩

theorem upsertItem_of_firstIdx (item : GalleryItem) : ∀ (items : List GalleryItem) (i : ℕ),
    firstIdxWithId item.id items = some i →
    upsertItem items item = items.set i item
  | [], i, h => by simp [firstIdxWithId] at h
  | existing :: rest, i, h => by
    rw [firstIdxWithId] at h
    rw [upsertItem]
    by_cases he : existing.id = item.id
    · rw [if_pos he] at h
      cases h
      rw [if_pos he]
      rfl
    · rw [if_neg he] at h
      rw [Option.map_eq_some'] at h
      obtain ⟨j, hj, rfl⟩ := h
      rw [if_neg he, upsertItem_of_firstIdx item rest j hj]
      rfl

theorem upsertItem_append (item : GalleryItem) : ∀ items : List GalleryItem,
    (∀ it ∈ items, it.id ≠ item.id) → upsertItem items item = items ++ [item]
  | [], _ => rfl
  | e :: rest, h => by
    rw [upsertItem, if_neg (h e (List.mem_cons_self e rest)),
      upsertItem_append item rest (fun it hit => h it (List.mem_cons_of_mem e hit))]
    rfl

theorem countP_id_eq_zero {items : List GalleryItem} {s : String}
    (h : s ∉ items.map (fun it => it.id)) :
    items.countP (fun it => it.id = s) = 0 := by
  rw [List.countP_eq_zero]
  intro it hit
  simp only [decide_eq_true_eq]
  exact fun he => h (List.mem_map.2 ⟨it, hit, he⟩)

theorem upsertItem_countP (item : GalleryItem) : ∀ items : List GalleryItem,
    (items.map (fun it => it.id)).Nodup →
    (upsertItem items item).countP (fun it => it.id = item.id) = 1
  | [], _ => by simp [upsertItem, List.countP_cons]
  | existing :: rest, h => by
    rw [List.map_cons, List.nodup_cons] at h
    rw [upsertItem]
    by_cases he : existing.id = item.id
    · rw [if_pos he, List.countP_cons]
      have h0 : rest.countP (fun it => it.id = item.id) = 0 :=
        countP_id_eq_zero (by rw [← he]; exact h.1)
      simp [h0]
    · rw [if_neg he, List.countP_cons, upsertItem_countP item rest h.2]
      simp [he]

theorem countP_id_eq_one_of_mem : ∀ (items : List GalleryItem) (s : String),
    (items.map (fun it => it.id)).Nodup → s ∈ items.map (fun it => it.id) →
    items.countP (fun it => it.id = s) = 1
  | [], s, _, hm => by simp at hm
  | it :: rest, s, hn, hm => by
    rw [List.map_cons, List.nodup_cons] at hn
    rw [List.map_cons, List.mem_cons] at hm
    rw [List.countP_cons]
    by_cases he : it.id = s
    · have h0 : rest.countP (fun x => x.id = s) = 0 := countP_id_eq_zero (he ▸ hn.1)
      simp [h0, he]
    · rcases hm with hm | hm
      · exact absurd hm.symm he
      · rw [countP_id_eq_one_of_mem rest s hn.2 hm]
        simp [he]

theorem quickUpdateItems_countP (items : List GalleryItem) (entry : GalleryItem)
    (h : (items.map (fun it => it.id)).Nodup) :
    (quickUpdateItems items entry).countP (fun it => it.id = entry.id) = 1 := by
  rw [quickUpdateItems]
  by_cases hm : entry.id ∈ items.map (fun item => item.id)
  · rw [if_pos hm]
    exact countP_id_eq_one_of_mem items entry.id h hm
  · rw [if_neg hm, List.countP_append, countP_id_eq_zero hm]
    simp

theorem find_or_create_found {config : GalleryConfig} {cid : String} {c : Category}
    (hf : config.categories.find? (fun cat => cat.id = cid) = some c) :
    find_or_create_category config cid = (c, config) := by
  unfold find_or_create_category
  rw [hf]

theorem find_or_create_missing {config : GalleryConfig} {cid : String}
    (hf : config.categories.find? (fun cat => cat.id = cid) = none) :
    find_or_create_category config cid
      = (newCategory cid, { config with categories := config.categories ++ [newCategory cid] }) := by
  unfold find_or_create_category
  rw [hf]

theorem find_or_create_nodup {config : GalleryConfig} {cid : String}
    (h : (config.categories.map (fun c => c.id)).Nodup) :
    ((find_or_create_category config cid).2.categories.map (fun c => c.id)).Nodup := by
  cases hf : config.categories.find? (fun cat => cat.id = cid) with
  | some c =>
    rw [find_or_create_found hf]
    exact h
  | none =>
    rw [find_or_create_missing hf]
    have hnm : cid ∉ config.categories.map (fun c => c.id) := by
      intro hm
      obtain ⟨c, hc, hid⟩ := List.mem_map.1 hm
      have := List.find?_eq_none.1 hf c hc
      simp [hid] at this
    simp only [List.map_append]
    rw [List.nodup_append]
    refine ⟨h, List.nodup_singleton _, ?_⟩
    intro a ha hb
    simp only [newCategory, List.map_cons, List.map_nil, List.mem_singleton] at hb
    subst hb
    exact hnm ha

theorem update_gallery_config_categories_ids (entry : GalleryItem) (category : String) :
    ∀ cats : List Category,
      (update_gallery_config_categories entry category cats).map (fun c => c.id)
        = cats.map (fun c => c.id)
  | [] => rfl
  | cat :: rest => by
    rw [update_gallery_config_categories]
    by_cases hc : cat.id = category
    · rw [if_pos hc]
      rfl
    · rw [if_neg hc, List.map_cons, List.map_cons,
        update_gallery_config_categories_ids entry category rest]

/-! ### Claim C1 -/

/-- C1 counterexample: re-importing an entry whose id is already present
through update_gallery_config of quick_import.py does not replace the
existing item; the old item stays and the new fields are discarded, while
the claim asserts replacement at the same index. -/
theorem quickUpdate_keeps_existing_item :
    (mkItem "x" "new").id = (mkItem "x" "old").id ∧
    quickUpdateItems [mkItem "x" "old"] (mkItem "x" "new") = [mkItem "x" "old"] ∧
    mkItem "x" "old" ≠ mkItem "x" "new" := by
  refine ⟨rfl, by decide, fun h => ?_⟩
  have := congrArg GalleryItem.title h
  simp [mkItem] at this

/-- C1 (amended): the upsert loop of batch_heic_importer.py replaces at the
first index carrying the imported id, keeping every other item in place, and
appends at the end when the id is absent; update_gallery_config of
quick_import.py appends when the id is absent but leaves the category
unchanged when the id is present (the new fields are dropped); in both
cases a category whose item ids are unique ends up with exactly one item
carrying the imported id. -/
theorem upsert_and_quick_update_spec (items : List GalleryItem) (item : GalleryItem)
    (huniq : (items.map (fun it => it.id)).Nodup) :
    (∀ i, firstIdxWithId item.id items = some i →
      upsertItem items item = items.set i item) ∧
    ((∀ it ∈ items, it.id ≠ item.id) → upsertItem items item = items ++ [item]) ∧
    (upsertItem items item).countP (fun it => it.id = item.id) = 1 ∧
    (item.id ∈ items.map (fun it => it.id) → quickUpdateItems items item = items) ∧
    (item.id ∉ items.map (fun it => it.id) → quickUpdateItems items item = items ++ [item]) ∧
    (quickUpdateItems items item).countP (fun it => it.id = item.id) = 1 := by
  refine ⟨fun i h => upsertItem_of_firstIdx item items i h,
    upsertItem_append item items, upsertItem_countP item items huniq,
    fun hm => ?_, fun hm => ?_, quickUpdateItems_countP items item huniq⟩
  · rw [quickUpdateItems, if_pos hm]
  · rw [quickUpdateItems, if_neg hm]

/-- C1 witness. -/
theorem upsert_and_quick_update_spec_witness :
    (([mkItem "a" "t"].map (fun it => it.id)).Nodup) ∧
    (upsertItem [mkItem "a" "t"] (mkItem "b" "u")).countP
      (fun it => it.id = (mkItem "b" "u").id) = 1 :=
  ⟨by decide, (upsert_and_quick_update_spec [mkItem "a" "t"] (mkItem "b" "u") (by decide)).2.2.1⟩

/-! ### Claim C2 -/

/-- C2 counterexample: resolving category nature through
update_gallery_config of quick_import.py against a manifest with no such
category constructs nothing: the category list stays empty, while the claim
asserts that a fresh category is constructed and appended. -/
theorem quick_update_creates_no_category :
    update_gallery_config_categories (mkItem "y" "t") "nature" [] = [] ∧
    (update_gallery_config_categories (mkItem "y" "t") "nature" []).find?
      (fun c => c.id = "nature") = none :=
  ⟨rfl, rfl⟩

/-- C2 (amended): find_or_create_category of batch_heic_importer.py returns
the first category whose id matches and otherwise constructs a category with
the requested id, title-cased name and empty item list and appends it, so
category ids stay unique; the category loop of update_gallery_config in
quick_import.py only ever updates an existing category in place and never
creates one, leaving the category id list unchanged. -/
theorem find_or_create_category_spec (config : GalleryConfig) (cid : String)
    (entry : GalleryItem)
    (huniq : (config.categories.map (fun c => c.id)).Nodup) :
    (∀ c, config.categories.find? (fun cat => cat.id = cid) = some c →
      find_or_create_category config cid = (c, config)) ∧
    (config.categories.find? (fun cat => cat.id = cid) = none →
      find_or_create_category config cid
        = (newCategory cid, { config with categories := config.categories ++ [newCategory cid] })) ∧
    (newCategory cid).id = cid ∧
    (newCategory cid).name = pyTitle cid ∧
    (newCategory cid).items = [] ∧
    ((find_or_create_category config cid).2.categories.map (fun c => c.id)).Nodup ∧
    (update_gallery_config_categories entry cid config.categories).map (fun c => c.id)
      = config.categories.map (fun c => c.id) :=
  ⟨fun _ hf => find_or_create_found hf, fun hf => find_or_create_missing hf,
    rfl, rfl, rfl, find_or_create_nodup huniq,
    update_gallery_config_categories_ids entry cid config.categories⟩

/-- C2 witness. -/
theorem find_or_create_category_spec_witness :
    ((emptyConfig.categories.map (fun c => c.id)).Nodup) ∧
    ((find_or_create_category emptyConfig "nature").2.categories.map
      (fun c => c.id)).Nodup :=
  ⟨by decide,
    (find_or_create_category_spec emptyConfig "nature" (mkItem "y" "t")
      (by decide)).2.2.2.2.2.1⟩

/-! ### Claim C5 -/

/-- C5 counterexample: with the probing tool missing (a raised subprocess
error), get_video_duration of quick_import.py and extract_livephoto.py
returns 5.0, not the 1.0 the claim requires of every probe failure. -/
theorem quick_probe_failure_returns_five :
    quick_get_video_duration none = 5 ∧ ((5 : ℚ) ≠ 1) :=
  ⟨rfl, by decide⟩

/-- C5 (amended): every duration probe returns the parsed float when the
external tool succeeds with a parseable output and a constant fallback on
any failure, never an exception; the fallback is 1.0 in
batch_heic_importer.py but 5.0 in quick_import.py and extract_livephoto.py
(the batch variant also maps empty and N/A outputs to 1.0 explicitly). -/
theorem get_video_duration_spec (probe : Option String) :
    (probe = none → get_video_duration probe = 1 ∧ quick_get_video_duration probe = 5) ∧
    (∀ out d, probe = some out → pyStrip out ≠ "" → pyStrip out ≠ "N/A" →
      pyFloat (pyStrip out) = some d →
      get_video_duration probe = d ∧ quick_get_video_duration probe = d) ∧
    (∀ out, probe = some out → pyFloat (pyStrip out) = none →
      get_video_duration probe = 1 ∧ quick_get_video_duration probe = 5) ∧
    (∀ out, probe = some out → (pyStrip out = "" ∨ pyStrip out = "N/A") →
      get_video_duration probe = 1) := by
  refine ⟨fun hp => by subst hp; exact ⟨rfl, rfl⟩, ?_, ?_, ?_⟩
  · intro out d hp h1 h2 hf
    subst hp
    constructor
    · simp only [get_video_duration]
      rw [if_pos ⟨h1, h2⟩, hf]
    · simp only [quick_get_video_duration]
      rw [hf]
  · intro out hp hf
    subst hp
    constructor
    · simp only [get_video_duration]
      by_cases hc : pyStrip out ≠ "" ∧ pyStrip out ≠ "N/A"
      · rw [if_pos hc, hf]
      · rw [if_neg hc]
    · simp only [quick_get_video_duration]
      rw [hf]
  · intro out hp hc
    subst hp
    simp only [get_video_duration]
    rw [if_neg]
    rcases hc with hc | hc
    · exact fun hn => hn.1 hc
    · exact fun hn => hn.2 hc

/-- C5 witness. -/
theorem get_video_duration_spec_witness :
    (pyStrip "35" ≠ "") ∧ (pyStrip "35" ≠ "N/A") ∧
    pyFloat (pyStrip "35") = some 35 ∧
    get_video_duration (some "35") = 35 := by
  refine ⟨by decide, by decide, by decide, ?_⟩
  exact ((get_video_duration_spec (some "35")).2.1 "35" 35 rfl
    (by decide) (by decide) (by decide)).1

/-! ### Lemmas about size formatting -/

theorem rhe_intCast (n : ℤ) : rhe ((n : ℤ) : ℚ) = n := by
  rw [rhe, Int.floor_intCast, sub_self,
    if_pos (by norm_num : (0:ℚ) < 1/2)]

theorem fmt1_eq {q : ℚ} {m : ℤ} (h : q * 10 = ((m : ℤ) : ℚ)) :
    fmt1 q = toString (m / 10) ++ "." ++ toString (m % 10) := by
  rw [fmt1, h, rhe_intCast]

theorem fmt1_shape (q : ℚ) (h : 0 ≤ q) :
    ∃ a b : ℕ, b < 10 ∧ fmt1 q = toString a ++ "." ++ toString b := by
  have hf : 0 ≤ ⌊q * 10⌋ := Int.floor_nonneg.2 (by positivity)
  have hn : 0 ≤ rhe (q * 10) := by
    rw [rhe]
    split
    · exact hf
    split
    · omega
    split
    · exact hf
    · omega
  refine ⟨(rhe (q * 10) / 10).toNat, (rhe (q * 10) % 10).toNat, ?_, ?_⟩
  · have h1 : rhe (q * 10) % 10 < 10 := Int.emod_lt_of_pos _ (by norm_num)
    have h2 : 0 ≤ rhe (q * 10) % 10 := Int.emod_nonneg _ (by norm_num)
    omega
  · have e1 : ((rhe (q * 10) / 10).toNat : ℤ) = rhe (q * 10) / 10 :=
      Int.toNat_of_nonneg (Int.ediv_nonneg hn (by norm_num))
    have e2 : ((rhe (q * 10) % 10).toNat : ℤ) = rhe (q * 10) % 10 :=
      Int.toNat_of_nonneg (Int.emod_nonneg _ (by norm_num))
    rw [fmt1, ← e1, ← e2]
    rfl

theorem get_file_size_bytes {n : ℕ} (h : n < 1024) :
    get_file_size_formatted n = toString n ++ " bytes" := by
  simp only [get_file_size_formatted, format_size_loop]
  rw [if_pos (by exact_mod_cast h : ((n:ℕ):ℚ) < 1024), if_true, Int.floor_natCast,
    String.append_assoc]
  rfl

theorem get_file_size_KB {n : ℕ} (h1 : 1024 ≤ n) (h2 : n < 1024 ^ 2) :
    get_file_size_formatted n = fmt1 ((n : ℚ) / 1024) ++ " KB" := by
  have hq1 : ¬((n:ℚ) < 1024) := by
    rw [not_lt]
    exact_mod_cast h1
  have hq2 : (n:ℚ) / 1024 < 1024 := by
    rw [div_lt_iff (by norm_num : (0:ℚ) < 1024)]
    calc (n:ℚ) < ((1024 ^ 2 : ℕ) : ℚ) := by exact_mod_cast h2
    _ = 1024 * 1024 := by norm_num
  simp only [get_file_size_formatted, format_size_loop]
  rw [if_neg hq1, if_pos hq2, if_neg (by decide : ¬("KB" = "bytes")),
    String.append_assoc]
  rfl

theorem get_file_size_MB {n : ℕ} (h1 : 1024 ^ 2 ≤ n) (h2 : n < 1024 ^ 3) :
    get_file_size_formatted n = fmt1 ((n : ℚ) / 1024 ^ 2) ++ " MB" := by
  have hq1 : ¬((n:ℚ) < 1024) := by
    rw [not_lt]
    calc (1024:ℚ) ≤ ((1024 ^ 2 : ℕ) : ℚ) := by norm_num
    _ ≤ (n:ℚ) := by exact_mod_cast h1
  have hq2 : ¬((n:ℚ) / 1024 < 1024) := by
    rw [not_lt, le_div_iff (by norm_num : (0:ℚ) < 1024)]
    calc (1024:ℚ) * 1024 = ((1024 ^ 2 : ℕ) : ℚ) := by norm_num
    _ ≤ (n:ℚ) := by exact_mod_cast h1
  have hq3 : (n:ℚ) / 1024 / 1024 < 1024 := by
    rw [div_div, div_lt_iff (by norm_num : (0:ℚ) < 1024 * 1024)]
    calc (n:ℚ) < ((1024 ^ 3 : ℕ) : ℚ) := by exact_mod_cast h2
    _ = 1024 * (1024 * 1024) := by norm_num
  simp only [get_file_size_formatted, format_size_loop]
  rw [if_neg hq1, if_neg hq2, if_pos hq3, if_neg (by decide : ¬("MB" = "bytes")),
    String.append_assoc, div_div]
  norm_num
  rfl

theorem get_file_size_GB {n : ℕ} (h1 : 1024 ^ 3 ≤ n) (h2 : n < 1024 ^ 4) :
    get_file_size_formatted n = fmt1 ((n : ℚ) / 1024 ^ 3) ++ " GB" := by
  have hq1 : ¬((n:ℚ) < 1024) := by
    rw [not_lt]
    calc (1024:ℚ) ≤ ((1024 ^ 3 : ℕ) : ℚ) := by norm_num
    _ ≤ (n:ℚ) := by exact_mod_cast h1
  have hq2 : ¬((n:ℚ) / 1024 < 1024) := by
    rw [not_lt, le_div_iff (by norm_num : (0:ℚ) < 1024)]
    calc (1024:ℚ) * 1024 ≤ ((1024 ^ 3 : ℕ) : ℚ) := by norm_num
    _ ≤ (n:ℚ) := by exact_mod_cast h1
  have hq3 : ¬((n:ℚ) / 1024 / 1024 < 1024) := by
    rw [div_div, not_lt, le_div_iff (by norm_num : (0:ℚ) < 1024 * 1024)]
    calc (1024:ℚ) * (1024 * 1024) = ((1024 ^ 3 : ℕ) : ℚ) := by norm_num
    _ ≤ (n:ℚ) := by exact_mod_cast h1
  have hq4 : (n:ℚ) / 1024 / 1024 / 1024 < 1024 := by
    rw [div_div, div_div, div_lt_iff (by norm_num : (0:ℚ) < 1024 * (1024 * 1024))]
    calc (n:ℚ) < ((1024 ^ 4 : ℕ) : ℚ) := by exact_mod_cast h2
    _ = 1024 * (1024 * (1024 * 1024)) := by norm_num
  simp only [get_file_size_formatted, format_size_loop]
  rw [if_neg hq1, if_neg hq2, if_neg hq3, if_pos hq4,
    if_neg (by decide : ¬("GB" = "bytes")), String.append_assoc, div_div, div_div]
  norm_num
  rfl

theorem get_file_size_TB {n : ℕ} (h1 : 1024 ^ 4 ≤ n) :
    get_file_size_formatted n = fmt1 ((n : ℚ) / 1024 ^ 4) ++ " TB" := by
  have hq1 : ¬((n:ℚ) < 1024) := by
    rw [not_lt]
    calc (1024:ℚ) ≤ ((1024 ^ 4 : ℕ) : ℚ) := by norm_num
    _ ≤ (n:ℚ) := by exact_mod_cast h1
  have hq2 : ¬((n:ℚ) / 1024 < 1024) := by
    rw [not_lt, le_div_iff (by norm_num : (0:ℚ) < 1024)]
    calc (1024:ℚ) * 1024 ≤ ((1024 ^ 4 : ℕ) : ℚ) := by norm_num
    _ ≤ (n:ℚ) := by exact_mod_cast h1
  have hq3 : ¬((n:ℚ) / 1024 / 1024 < 1024) := by
    rw [div_div, not_lt, le_div_iff (by norm_num : (0:ℚ) < 1024 * 1024)]
    calc (1024:ℚ) * (1024 * 1024) ≤ ((1024 ^ 4 : ℕ) : ℚ) := by norm_num
    _ ≤ (n:ℚ) := by exact_mod_cast h1
  have hq4 : ¬((n:ℚ) / 1024 / 1024 / 1024 < 1024) := by
    rw [div_div, div_div, not_lt, le_div_iff (by norm_num : (0:ℚ) < 1024 * (1024 * 1024))]
    calc (1024:ℚ) * (1024 * (1024 * 1024)) = ((1024 ^ 4 : ℕ) : ℚ) := by norm_num
    _ ≤ (n:ℚ) := by exact_mod_cast h1
  simp only [get_file_size_formatted, format_size_loop]
  rw [if_neg hq1, if_neg hq2, if_neg hq3, if_neg hq4]
  rw [div_div, div_div, div_div]
  norm_num

theorem format_bytes_small {n : ℕ} (h : n < 1024) :
    format_bytes n = fmt1 ((n : ℕ) : ℚ) ++ " B" := by
  simp only [format_bytes, format_bytes_loop]
  rw [if_pos (by exact_mod_cast h : ((n:ℕ):ℚ) < 1024), String.append_assoc]
  rfl

/-! ### Claim C6 -/

/-- C6 counterexample: format_bytes of quick_import.py, one of the two size
formatters the claim covers, prints the bytes unit with one decimal and the
unit name B, so format_bytes 0 is 0.0 B rather than 0 bytes. -/
theorem format_bytes_zero_counterexample :
    format_bytes 0 = "0.0 B" ∧ ("0.0 B" : String) ≠ "0 bytes" := by
  constructor
  · rw [format_bytes_small (by norm_num),
      fmt1_eq (show (((0:ℕ):ℚ)) * 10 = ((0 : ℤ) : ℚ) by norm_num)]
    rfl
  · decide

/-- C6 (amended): the size formatter of get_file_size in
batch_heic_importer.py satisfies every stated equality and the general rule:
the unit is the largest among bytes, KB, MB, GB, TB whose mantissa is below
1024, exactly 1024 rolling over, with no decimals for bytes and one decimal
otherwise; format_bytes of quick_import.py shares the rollover rule but
names the bytes unit B and prints it with one decimal, so format_bytes 0 is
0.0 B. -/
theorem size_format_spec (n : ℕ) (q : ℚ) :
    get_file_size_formatted 0 = "0 bytes" ∧
    get_file_size_formatted 1023 = "1023 bytes" ∧
    get_file_size_formatted 1024 = "1.0 KB" ∧
    get_file_size_formatted 1536 = "1.5 KB" ∧
    get_file_size_formatted (1024 ^ 4) = "1.0 TB" ∧
    (n < 1024 → get_file_size_formatted n = toString n ++ " bytes") ∧
    (1024 ≤ n → n < 1024 ^ 2 →
      get_file_size_formatted n = fmt1 ((n : ℚ) / 1024) ++ " KB") ∧
    (1024 ^ 2 ≤ n → n < 1024 ^ 3 →
      get_file_size_formatted n = fmt1 ((n : ℚ) / 1024 ^ 2) ++ " MB") ∧
    (1024 ^ 3 ≤ n → n < 1024 ^ 4 →
      get_file_size_formatted n = fmt1 ((n : ℚ) / 1024 ^ 3) ++ " GB") ∧
    (1024 ^ 4 ≤ n → get_file_size_formatted n = fmt1 ((n : ℚ) / 1024 ^ 4) ++ " TB") ∧
    (0 ≤ q → ∃ a b : ℕ, b < 10 ∧ fmt1 q = toString a ++ "." ++ toString b) ∧
    (n < 1024 → format_bytes n = fmt1 ((n : ℕ) : ℚ) ++ " B") ∧
    format_bytes 0 = "0.0 B" := by
  refine ⟨?_, ?_, ?_, ?_, ?_,
    fun h => get_file_size_bytes h,
    fun h1 h2 => get_file_size_KB h1 h2,
    fun h1 h2 => get_file_size_MB h1 h2,
    fun h1 h2 => get_file_size_GB h1 h2,
    fun h1 => get_file_size_TB h1,
    fun hq => fmt1_shape q hq,
    fun h => format_bytes_small h, ?_⟩
  · rw [get_file_size_bytes (by norm_num)]
    rfl
  · rw [get_file_size_bytes (by norm_num)]
    rfl
  · rw [get_file_size_KB (by norm_num) (by norm_num),
      fmt1_eq (show (((1024:ℕ):ℚ)) / 1024 * 10 = ((10 : ℤ) : ℚ) by norm_num)]
    rfl
  · rw [get_file_size_KB (by norm_num) (by norm_num),
      fmt1_eq (show (((1536:ℕ):ℚ)) / 1024 * 10 = ((15 : ℤ) : ℚ) by norm_num)]
    rfl
  · rw [get_file_size_TB (by norm_num),
      fmt1_eq (show (((1024 ^ 4:ℕ):ℚ)) / 1024 ^ 4 * 10 = ((10 : ℤ) : ℚ) by norm_num)]
    rfl
  · rw [format_bytes_small (by norm_num),
      fmt1_eq (show (((0:ℕ):ℚ)) * 10 = ((0 : ℤ) : ℚ) by norm_num)]
    rfl

/-- C6 witness. -/
theorem size_format_spec_witness :
    (1024 ≤ 1536) ∧ ((1536 : ℕ) < 1024 ^ 2) ∧
    get_file_size_formatted 1536 = fmt1 (((1536 : ℕ) : ℚ) / 1024) ++ " KB" :=
  ⟨by norm_num, by norm_num,
    (size_format_spec 1536 0).2.2.2.2.2.2.1 (by norm_num) (by norm_num)⟩

/-! ### Claim C3 -/

/-- C3 counterexample: a file that exists and parses as the empty JSON
object, which has no categories field, is returned untouched by
load_gallery_config: the load succeeds, while the claim requires it to fail
with a MalformedManifest condition. -/
theorem load_missing_categories_succeeds :
    load_gallery_config (some (Except.ok (Json.obj []))) "t"
      = Except.ok (Json.obj []) ∧
    dictGet ([] : List (String × Json)) "categories" = none :=
  ⟨rfl, rfl⟩

/-- C3 (amended): load_gallery_config returns a freshly initialized manifest
(empty category list, version 1.0.0, the default baseURL, lastUpdated = now)
when no file exists, and propagates the JSON parse error, fatal for the run,
when the file exists but is not valid JSON; a file that parses but lacks the
categories field is returned as is by load, the malformation only surfacing
later when the categories list is first accessed. -/
theorem load_gallery_config_spec (e now : String) (j : Json) :
    load_gallery_config none now = Except.ok (Json.obj (freshManifestFields now)) ∧
    dictGet (freshManifestFields now) "categories" = some (Json.arr []) ∧
    dictGet (freshManifestFields now) "version" = some (Json.str "1.0.0") ∧
    dictGet (freshManifestFields now) "lastUpdated" = some (Json.str now) ∧
    dictGet (freshManifestFields now) "baseURL" = some (Json.str
      "https://raw.githubusercontent.com/CodingMogul/livephotos-gallery/master") ∧
    load_gallery_config (some (Except.error e)) now = Except.error e ∧
    load_gallery_config (some (Except.ok j)) now = Except.ok j :=
  ⟨rfl, rfl, rfl, rfl, rfl, rfl, rfl⟩

/-! ### Lemmas about save -/

theorem dictGet_dictSet (k : String) (v : Json) : ∀ config : List (String × Json),
    dictGet (dictSet config k v) k = some v
  | [] => by simp [dictSet, dictGet]
  | (k0, v0) :: rest => by
    rw [dictSet]
    by_cases h : k0 = k
    · rw [if_pos h, dictGet, if_pos h]
    · rw [if_neg h, dictGet, if_neg h, dictGet_dictSet k v rest]

theorem dictGet_dictSet_ne (k k2 : String) (v : Json) (hne : k2 ≠ k) :
    ∀ config : List (String × Json),
    dictGet (dictSet config k v) k2 = dictGet config k2
  | [] => by
    have h2 : ¬(k = k2) := fun h => hne h.symm
    simp [dictSet, dictGet, h2]
  | (k0, v0) :: rest => by
    rw [dictSet]
    by_cases h : k0 = k
    · rw [if_pos h, dictGet, dictGet]
      rw [if_neg (fun hk => hne (hk.symm.trans h)), if_neg (fun hk => hne (hk.symm.trans h))]
    · rw [if_neg h, dictGet, dictGet, dictGet_dictSet_ne k k2 v hne rest]

theorem pyJsonDumps_obj_ends (ind : ℕ) (fields : List (String × Json)) :
    ∃ s : String, pyJsonDumps ind (Json.obj fields) = s ++ "\x7d" := by
  cases fields with
  | nil => exact ⟨"\x7b", rfl⟩
  | cons f fs =>
    exact ⟨"\x7b\n" ++ dumpsObjItems (ind + 2) (f :: fs) ++ "\n" ++ spaces ind, rfl⟩

theorem lastChar_append_single (s t : String) (c : Char) (h : t = String.singleton c) :
    lastChar? (s ++ t) = some c := by
  subst h
  rw [lastChar?, String.data_append]
  exact List.getLast?_concat _

/-! ### Claim C4 -/

/-- C4 counterexample: save_gallery_config of batch_heic_importer.py writes
the serialized manifest with no trailing newline (the file ends with the
closing brace), and the config write of update_gallery_config in
quick_import.py serializes the manifest without touching lastUpdated, so a
stale timestamp is written back; both contradict the claim that every save
sets lastUpdated and ends the file with a newline. -/
theorem save_counterexample :
    (save_gallery_config [] "t").2 = "\x7b\n  \"lastUpdated\": \"t\"\n\x7d" ∧
    lastChar? (save_gallery_config [] "t").2 ≠ some '\n' ∧
    quick_config_write [("lastUpdated", Json.str "old")]
      = "\x7b\n  \"lastUpdated\": \"old\"\n\x7d\n" := by
  exact ⟨rfl, by decide, rfl⟩

/-- C4 (amended): save_gallery_config of batch_heic_importer.py sets
lastUpdated to the current time, leaves every other field unchanged and
overwrites the file with the 2-space-indent serialization of the updated
manifest, which ends with the closing brace and no trailing newline; the
config write of quick_import.py appends the trailing newline to the same
serialization but does not update lastUpdated. -/
theorem save_gallery_config_spec (config : List (String × Json)) (now k : String) :
    dictGet (save_gallery_config config now).1 "lastUpdated" = some (Json.str now) ∧
    (k ≠ "lastUpdated" →
      dictGet (save_gallery_config config now).1 k = dictGet config k) ∧
    (save_gallery_config config now).2
      = pyJsonDumps 0 (Json.obj (save_gallery_config config now).1) ∧
    lastChar? (save_gallery_config config now).2 = some '\x7d' ∧
    quick_config_write config = pyJsonDumps 0 (Json.obj config) ++ "\n" ∧
    lastChar? (quick_config_write config) = some '\n' := by
  refine ⟨dictGet_dictSet _ _ config, fun hk => dictGet_dictSet_ne _ _ _ hk config,
    rfl, ?_, rfl, ?_⟩
  · obtain ⟨s, hs⟩ := pyJsonDumps_obj_ends 0 (dictSet config "lastUpdated" (Json.str now))
    show lastChar? (pyJsonDumps 0 (Json.obj (dictSet config "lastUpdated" (Json.str now))))
      = some '\x7d'
    rw [hs]
    exact lastChar_append_single s _ _ rfl
  · exact lastChar_append_single _ _ _ rfl

/-- C4 witness. -/
theorem save_gallery_config_spec_witness :
    ("version" ≠ "lastUpdated") ∧
    dictGet (save_gallery_config [("version", Json.str "1.0.0")] "t").1 "version"
      = dictGet [("version", Json.str "1.0.0")] "version" :=
  ⟨by decide,
    (save_gallery_config_spec [("version", Json.str "1.0.0")] "t" "version").2.1 (by decide)⟩

/-! ### Claim C8 -/

/-- C8 counterexample: quick_import builds an entry whose isPremium flag is
true while the literal tag premium does not occur in its tag list, so
isPremium is not equivalent to membership of premium among the tags. -/
theorem quick_entry_premium_without_tag :
    (quick_import_entry "x" "X" "nature" true "HEIC" "MOV" 0 0 none "t").isPremium = true ∧
    "premium" ∉ (quick_import_entry "x" "X" "nature" true "HEIC" "MOV" 0 0 none "t").tags :=
  ⟨rfl, by decide⟩

/-- C8 (amended): items built by create_gallery_item of
batch_heic_importer.py have isPremium true exactly when the literal tag
premium occurs in their tag list; entries built by quick_import take
isPremium from the premium command-line flag instead, with tag list category
followed by custom, so the equivalence fails there whenever the flag is true
and the category is not premium. -/
theorem isPremium_spec (heicName : String) (video : Option (String × Option String))
    (tags : List String) (folder_name : String) (sb : ℕ) (sf now : String)
    (name title category : String) (is_premium : Bool) (ie ve : String)
    (i m : ℕ) (probe : Option String) :
    ((create_gallery_item heicName video tags folder_name sb sf now).isPremium = true
      ↔ "premium" ∈ tags) ∧
    (create_gallery_item heicName video tags folder_name sb sf now).tags = tags ∧
    (quick_import_entry name title category is_premium ie ve i m probe now).isPremium
      = is_premium ∧
    (quick_import_entry name title category is_premium ie ve i m probe now).tags
      = [category, "custom"] := by
  refine ⟨?_, rfl, rfl, rfl⟩
  show tags.contains "premium" = true ↔ "premium" ∈ tags
  exact List.elem_iff

theorem fsRead_append_of_none : ∀ {fs : List (String × String)} {dest : String},
    fsRead fs dest = none → ∀ c : String, fsRead (fs ++ [(dest, c)]) dest = some c
  | [], dest, _, c => by simp [fsRead]
  | e :: rest, dest, h, c => by
    rw [fsRead] at h
    rw [List.cons_append, fsRead]
    by_cases he : e.1 = dest
    · rw [if_pos he] at h
      exact absurd h (by simp)
    · rw [if_neg he] at h
      rw [if_neg he]
      exact fsRead_append_of_none h c

/-- C9: importing a still asset whose destination file already exists leaves
the filesystem, and in particular the destination contents, unchanged; the
copy happens exactly when the destination is absent, and then the
destination receives the source contents. -/
theorem copy_image_if_absent_spec (fs : List (String × String)) (src dest content : String) :
    ((fsRead fs dest).isSome → copy_image_if_absent fs src dest = fs) ∧
    (fsRead fs dest = none → fsRead fs src = some content →
      copy_image_if_absent fs src dest = fs ++ [(dest, content)] ∧
      fsRead (copy_image_if_absent fs src dest) dest = some content) := by
  constructor
  · intro h
    rw [copy_image_if_absent, if_pos h]
  · intro hd hs
    have hnot : ¬(fsRead fs dest).isSome = true := by rw [hd]; simp
    constructor
    · rw [copy_image_if_absent, if_neg hnot, hs]
    · rw [copy_image_if_absent, if_neg hnot, hs]
      exact fsRead_append_of_none hd content

/-- C9 witness. -/
theorem copy_image_if_absent_spec_witness :
    (fsRead [("images/a.HEIC", "old")] "images/a.HEIC").isSome = true ∧
    copy_image_if_absent [("images/a.HEIC", "old")] "intake/a.HEIC" "images/a.HEIC"
      = [("images/a.HEIC", "old")] :=
  ⟨by decide,
    (copy_image_if_absent_spec [("images/a.HEIC", "old")] "intake/a.HEIC"
      "images/a.HEIC" "x").1 (by decide)⟩

theorem update_to_heic_items_eq (heicExists : String → Bool) :
    ∀ items : List GalleryItem,
    update_to_heic_items heicExists items
      = (items.filter (fun item => heicExists ("images/" ++ item.id ++ ".HEIC"))).map
          (fun item => { item with
            imageURL := "images/" ++ item.id ++ ".HEIC"
            thumbnailURL := "images/" ++ item.id ++ ".HEIC" })
  | [] => rfl
  | item :: rest => by
    rw [update_to_heic_items, List.filter_cons]
    by_cases h : heicExists ("images/" ++ item.id ++ ".HEIC") = true
    · rw [if_pos h, if_pos h, List.map_cons, update_to_heic_items_eq heicExists rest]
    · rw [if_neg h, if_neg h, update_to_heic_items_eq heicExists rest]

/-- C10: the HEIC migration keeps, in each category, exactly the items whose
images/<id>.HEIC file exists, in their original relative order, rewriting
their imageURL and thumbnailURL to that path, and drops every other item
from the manifest that is then saved. -/
theorem update_to_heic_spec (heicExists : String → Bool) (config : GalleryConfig)
    (items : List GalleryItem) :
    update_to_heic_items heicExists items
      = (items.filter (fun item => heicExists ("images/" ++ item.id ++ ".HEIC"))).map
          (fun item => { item with
            imageURL := "images/" ++ item.id ++ ".HEIC"
            thumbnailURL := "images/" ++ item.id ++ ".HEIC" }) ∧
    (update_to_heic heicExists config).categories
      = config.categories.map (fun category =>
          { category with items := update_to_heic_items heicExists category.items }) ∧
    (∀ item ∈ update_to_heic_items heicExists items,
      item.imageURL = "images/" ++ item.id ++ ".HEIC" ∧
      item.thumbnailURL = "images/" ++ item.id ++ ".HEIC" ∧
      heicExists ("images/" ++ item.id ++ ".HEIC") = true) := by
  refine ⟨update_to_heic_items_eq heicExists items, rfl, ?_⟩
  intro item hmem
  rw [update_to_heic_items_eq heicExists items] at hmem
  obtain ⟨orig, horig, rfl⟩ := List.mem_map.1 hmem
  have hf := List.of_mem_filter horig
  simp only [decide_eq_true_eq] at hf
  exact ⟨rfl, rfl, hf⟩

/-- C10 witness. -/
theorem update_to_heic_spec_witness :
    (({ mkItem "a" "t" with
        imageURL := "images/a.HEIC"
        thumbnailURL := "images/a.HEIC" })
      ∈ update_to_heic_items (fun p => p = "images/a.HEIC") [mkItem "a" "t", mkItem "b" "u"]) ∧
    ({ mkItem "a" "t" with
      imageURL := "images/a.HEIC"
      thumbnailURL := "images/a.HEIC" } : GalleryItem).imageURL = "images/a.HEIC" :=
  ⟨by decide,
    ((update_to_heic_spec (fun p => p = "images/a.HEIC") emptyConfig
      [mkItem "a" "t", mkItem "b" "u"]).2.2
      { mkItem "a" "t" with
        imageURL := "images/a.HEIC"
        thumbnailURL := "images/a.HEIC" }
      (by decide)).1⟩

end LivePhotos
